import Mathlib

/-!
Verification of the surface-indexing experiment: a shallow embedding of the
instance registry, the focus state store with its dispatcher, and the
identifier-collection function over the recursive surface tree, together with
theorems settling the specified properties.
-/

namespace SurfaceIndexing

/-!
## Instance registry

The source keeps `surfaceInstances` as a record from a numeric id to the list
of live instance numbers.  A missing entry and an empty list are observationally
identical everywhere in the source (`registerInstance` re-creates `[0]` in both
cases, `removeInstance` and `getInstances` treat them the same), so the
registry is embedded as a total function defaulting to `[]`.
-/

def Registry : Type := Nat → List Nat

def emptyRegistry : Registry := fun _ => []

def updateAt (r : Registry) (id : Nat) (l : List Nat) : Registry :=
  fun j => if j = id then l else r j

/-- `getInstances(id)` returns `surfaceInstances[id] ?? []`. -/
def getInstances (r : Registry) (id : Nat) : List Nat := r id

/-- `registerInstance(id)`: empty (or missing) list becomes `[0]` returning `0`;
otherwise `Math.max(...list) + 1` is appended and returned.  `Math.max` over a
non-empty list of naturals is `foldl Nat.max 0`. -/
def registerInstance (r : Registry) (id : Nat) : Nat × Registry :=
  if (r id).isEmpty then
    (0, updateAt r id [0])
  else
    let inst := (r id).foldl Nat.max 0 + 1
    (inst, updateAt r id (r id ++ [inst]))

/-- `removeInstance(id, instance)`: `indexOf` followed by a single `splice`
removes exactly the first occurrence when present, which is `List.erase`;
when the entry is missing or the value absent nothing changes. -/
def removeInstance (r : Registry) (id : Nat) (inst : Nat) : Registry :=
  updateAt r id ((r id).erase inst)

/-- JavaScript `Array.prototype.indexOf`: index of the first occurrence,
`none` standing for `-1`. -/
def indexOfFirst (x : Nat) : List Nat → Option Nat
  | [] => none
  | a :: rest => if a = x then some 0 else (indexOfFirst x rest).map (fun i => i + 1)

/-- The `-1`-returning view of `indexOf` used by `nextInstance`. -/
def jsIndexOf (l : List Nat) (x : Nat) : Int :=
  match indexOfFirst x l with
  | some i => (i : Int)
  | none => -1

/-- The `??` operator: left operand unless it is `undefined`. -/
def jsFallback (a b : Option Nat) : Option Nat :=
  match a with
  | some v => some v
  | none => b

/-- `nextInstance(id, instance)`: `instances[index + 1] ?? instances[0]` where
`index = instances.indexOf(instance)`.  The result is `undefined` (`none`)
exactly when the list is empty. -/
def nextInstance (r : Registry) (id : Nat) (cur : Nat) : Option Nat :=
  let instances := getInstances r id
  let index := jsIndexOf instances cur
  jsFallback (instances.get? (index + 1).toNat) (instances.get? 0)

/-- The dispatcher calls `nextInstance(surfaceId, draft.focus.instance!)`.
The `!` is a compile-time assertion only: at runtime the field may be
`undefined`, and `indexOf(undefined)` on a number array is `-1`, so the call
yields `instances[0] ?? instances[0]`. -/
def nextInstanceOpt (r : Registry) (id : Nat) (cur : Option Nat) : Option Nat :=
  match cur with
  | some c => nextInstance r id c
  | none => jsFallback ((getInstances r id).get? 0) ((getInstances r id).get? 0)

/-!
## Focus state store and dispatcher
-/

/-- The `focus` field of `AppState`: `{ id: number; instance?: number }`.
The instance slot is optional in the source type and can be `undefined` at
runtime, hence `Option Nat`. -/
structure Focus where
  id : Nat
  inst : Option Nat
deriving DecidableEq, Repr

/-- `AppState = { overlays: boolean; focus?: { id, instance? } }`. -/
structure AppState where
  overlays : Bool
  focus : Option Focus
deriving DecidableEq, Repr

inductive AppEvent where
  | focusSurface (surfaceId : Nat)

/-- The `FOCUS_SURFACE` branch of `dispatch`: if the current focus carries the
target id, advance via `nextInstance`; otherwise focus
`getInstances(surfaceId).at(0)!` (which is `undefined` on an empty list). -/
def dispatch (r : Registry) (s : AppState) (e : AppEvent) : AppState :=
  match e with
  | .focusSurface surfaceId =>
    match s.focus with
    | some f =>
      if f.id = surfaceId then
        let next := nextInstanceOpt r surfaceId f.inst
        { s with focus := some ⟨surfaceId, next⟩ }
      else
        { s with focus := some ⟨surfaceId, (getInstances r surfaceId).get? 0⟩ }
    | none => { s with focus := some ⟨surfaceId, (getInstances r surfaceId).get? 0⟩ }

/-- Iterated dispatch of `FOCUS_SURFACE(id)` against a fixed registry. -/
def dispatchN (r : Registry) (s : AppState) (id : Nat) : Nat → AppState
  | 0 => s
  | k + 1 => dispatch r (dispatchN r s id k) (.focusSurface id)

/-!
## Combined system state

The registry and the store are the two process-wide singletons; the unmount
cleanup in `useSurfaceInstanceId` calls only `removeInstance` and never touches
the store, and `dispatch` writes only the store's focus field.
-/

structure Sys where
  reg : Registry
  app : AppState

/-- The unmount effect of `useSurfaceInstanceId`: `removeInstance(id, instance)`. -/
def sysRemove (s : Sys) (id inst : Nat) : Sys :=
  { s with reg := removeInstance s.reg id inst }

/-- The mount effect of `useSurfaceInstanceId`: `registerInstance(id)`,
returning the assigned instance number. -/
def sysRegister (s : Sys) (id : Nat) : Nat × Sys :=
  let p := registerInstance s.reg id
  (p.1, { s with reg := p.2 })

/-!
## Registry operation sequences (reachable states)

A registry state of the running program arises from the empty record by the
mount/unmount effects, i.e. by a sequence of `registerInstance` and
`removeInstance` calls.
-/

inductive RegOp where
  | register (id : Nat)
  | remove (id : Nat) (inst : Nat)

def applyOp (r : Registry) : RegOp → Registry
  | .register id => (registerInstance r id).2
  | .remove id inst => removeInstance r id inst

def runOps (ops : List RegOp) : Registry :=
  ops.foldl applyOp emptyRegistry

/-!
## Surface tree and identifier collection
-/

/-- `Datum`: a card leaf with its display payload, or a stack holding an
ordered list of child data. -/
inductive Datum where
  | card (id : Nat) (title description : String)
  | stack (id : Nat) (data : List Datum)

mutual

/-- The branch of `collectIds` for one datum: a stack contributes its own id
followed by the recursive collection over its children; anything else
contributes only its own id. -/
def datumIds : Datum → List Nat
  | .card id _ _ => [id]
  | .stack id data => id :: datumListIds data

/-- The `flatMap` over a list of data inside `collectIds`. -/
def datumListIds : List Datum → List Nat
  | [] => []
  | d :: rest => datumIds d ++ datumListIds rest

end

/-- `collectIds(data)` builds `new Set(...)` from the flat-mapped ids:
the deduplicated set of collected identifiers. -/
def collectIds (data : List Datum) : Finset Nat :=
  (datumListIds data).toFinset

/-- Specification-side membership: identifier `a` appears somewhere in a
datum tree (as the node's own id or anywhere below a stack). -/
inductive IdAppears : Nat → Datum → Prop where
  | card (a : Nat) (t d : String) : IdAppears a (Datum.card a t d)
  | stackSelf (a : Nat) (l : List Datum) : IdAppears a (Datum.stack a l)
  | stackChild (a id : Nat) (l : List Datum) (d : Datum) :
      d ∈ l → IdAppears a d → IdAppears a (Datum.stack id l)

/-!
## Helper lemmas
-/

theorem get?_eq_some_getD (l : List Nat) (k : Nat) (h : k < l.length) :
    l.get? k = some (l.getD k 0) := by
  induction l generalizing k with
  | nil => simp at h
  | cons a rest ih =>
    cases k with
    | zero => rfl
    | succ k =>
      simp only [List.length_cons, Nat.succ_lt_succ_iff] at h
      simpa using ih k h

theorem get?_zero_of_ne_nil (l : List Nat) (h : l ≠ []) :
    l.get? 0 = some (l.headD 0) := by
  cases l with
  | nil => exact absurd rfl h
  | cons a rest => rfl

theorem indexOfFirst_cons_pos (x : Nat) (rest : List Nat) :
    indexOfFirst x (x :: rest) = some 0 := by
  show (if x = x then some 0 else (indexOfFirst x rest).map (fun i => i + 1)) = some 0
  rw [if_pos rfl]

theorem indexOfFirst_cons_neg (x a : Nat) (rest : List Nat) (hax : a ≠ x) :
    indexOfFirst x (a :: rest) = (indexOfFirst x rest).map (fun i => i + 1) := by
  show (if a = x then some 0 else (indexOfFirst x rest).map (fun i => i + 1)) = _
  rw [if_neg hax]

theorem indexOfFirst_eq_none_iff (x : Nat) (l : List Nat) :
    indexOfFirst x l = none ↔ x ∉ l := by
  induction l with
  | nil => simp [indexOfFirst]
  | cons a rest ih =>
    by_cases hax : a = x
    · subst hax
      rw [indexOfFirst_cons_pos]
      simp
    · rw [indexOfFirst_cons_neg x a rest hax, Option.map_eq_none', ih]
      simp only [List.mem_cons, not_or]
      constructor
      · intro h
        exact ⟨fun hxa => hax hxa.symm, h⟩
      · intro h
        exact h.2

theorem indexOfFirst_lt_length (x : Nat) (l : List Nat) (i : Nat)
    (h : indexOfFirst x l = some i) : i < l.length := by
  induction l generalizing i with
  | nil => simp [indexOfFirst] at h
  | cons a rest ih =>
    by_cases hax : a = x
    · subst hax
      rw [indexOfFirst_cons_pos] at h
      cases h
      simp
    · rw [indexOfFirst_cons_neg x a rest hax, Option.map_eq_some'] at h
      obtain ⟨j, hj, hji⟩ := h
      subst hji
      simpa [Nat.succ_lt_succ_iff] using ih j hj

theorem indexOfFirst_getD (x : Nat) (l : List Nat) (i : Nat)
    (h : indexOfFirst x l = some i) : l.getD i 0 = x := by
  induction l generalizing i with
  | nil => simp [indexOfFirst] at h
  | cons a rest ih =>
    by_cases hax : a = x
    · subst hax
      rw [indexOfFirst_cons_pos] at h
      cases h
      rfl
    · rw [indexOfFirst_cons_neg x a rest hax, Option.map_eq_some'] at h
      obtain ⟨j, hj, hji⟩ := h
      subst hji
      simpa using ih j hj

theorem indexOfFirst_of_nodup (l : List Nat) (k : Nat) (hnd : l.Nodup)
    (hk : k < l.length) : indexOfFirst (l.getD k 0) l = some k := by
  induction l generalizing k with
  | nil => simp at hk
  | cons a rest ih =>
    rcases List.nodup_cons.mp hnd with ⟨hamem, hrest⟩
    cases k with
    | zero => simpa using indexOfFirst_cons_pos a rest
    | succ k =>
      simp only [List.length_cons, Nat.succ_lt_succ_iff] at hk
      have hmem : rest.getD k 0 ∈ rest := by
        have := get?_eq_some_getD rest k hk
        exact List.get?_mem this
      have hne : a ≠ rest.getD k 0 := by
        intro heq
        exact hamem (heq ▸ hmem)
      rw [List.getD_cons_succ, indexOfFirst_cons_neg (rest.getD k 0) a rest hne,
        ih k hrest hk]
      rfl

theorem natMax_eq_ite (a b : Nat) : Nat.max a b = if a ≤ b then b else a := rfl

theorem foldl_max_init (l : List Nat) (a : Nat) :
    l.foldl Nat.max a = Nat.max a (l.foldl Nat.max 0) := by
  induction l generalizing a with
  | nil => simp
  | cons b rest ih =>
    show rest.foldl Nat.max (Nat.max a b) = Nat.max a (rest.foldl Nat.max (Nat.max 0 b))
    rw [ih (Nat.max a b), ih (Nat.max 0 b)]
    generalize rest.foldl Nat.max 0 = m
    simp only [natMax_eq_ite]
    split_ifs <;> omega

theorem mem_le_foldl_max (l : List Nat) (x : Nat) (h : x ∈ l) :
    x ≤ l.foldl Nat.max 0 := by
  induction l with
  | nil => simp at h
  | cons b rest ih =>
    show x ≤ rest.foldl Nat.max (Nat.max 0 b)
    rw [foldl_max_init rest (Nat.max 0 b)]
    rcases List.mem_cons.mp h with hb | hmem
    · subst hb
      generalize rest.foldl Nat.max 0 = m
      simp only [natMax_eq_ite]
      split_ifs <;> omega
    · have hx := ih hmem
      generalize hm : rest.foldl Nat.max 0 = m
      rw [hm] at hx
      simp only [natMax_eq_ite]
      split_ifs <;> omega

theorem foldl_max_mem (l : List Nat) (h : l ≠ []) : l.foldl Nat.max 0 ∈ l := by
  induction l with
  | nil => exact absurd rfl h
  | cons b rest ih =>
    show rest.foldl Nat.max (Nat.max 0 b) ∈ b :: rest
    rw [foldl_max_init rest (Nat.max 0 b)]
    cases rest with
    | nil => simp
    | cons c t =>
      have hmem := ih (by simp)
      rcases Nat.le_total ((c :: t).foldl Nat.max 0) b with hle | hle
      · have hmax : Nat.max (Nat.max 0 b) ((c :: t).foldl Nat.max 0) = b := by
          simp only [natMax_eq_ite]
          split_ifs <;> omega
        rw [hmax]
        exact List.mem_cons_self b (c :: t)
      · have hmax : Nat.max (Nat.max 0 b) ((c :: t).foldl Nat.max 0)
            = (c :: t).foldl Nat.max 0 := by
          simp only [natMax_eq_ite]
          split_ifs <;> omega
        rw [hmax]
        exact List.mem_cons_of_mem b hmem

theorem nextInstance_eq (r : Registry) (id cur : Nat) :
    nextInstance r id cur =
      jsFallback ((getInstances r id).get?
          ((jsIndexOf (getInstances r id) cur + 1).toNat))
        ((getInstances r id).get? 0) := rfl

theorem jsIndexOf_eq_of_found (l : List Nat) (x i : Nat)
    (h : indexOfFirst x l = some i) : jsIndexOf l x = (i : Int) := by
  simp [jsIndexOf, h]

theorem jsIndexOf_eq_of_not_found (l : List Nat) (x : Nat)
    (h : indexOfFirst x l = none) : jsIndexOf l x = -1 := by
  simp [jsIndexOf, h]

theorem nextInstance_found_mid (r : Registry) (id cur i : Nat)
    (h : indexOfFirst cur (getInstances r id) = some i)
    (hlt : i + 1 < (getInstances r id).length) :
    nextInstance r id cur = some ((getInstances r id).getD (i + 1) 0) := by
  rw [nextInstance_eq, jsIndexOf_eq_of_found _ _ _ h]
  have htn : (((i : Nat) : Int) + 1).toNat = i + 1 := by omega
  rw [htn, get?_eq_some_getD _ _ hlt]
  rfl

theorem nextInstance_found_last (r : Registry) (id cur i : Nat)
    (h : indexOfFirst cur (getInstances r id) = some i)
    (hlen : i + 1 = (getInstances r id).length) :
    nextInstance r id cur = some ((getInstances r id).headD 0) := by
  rw [nextInstance_eq, jsIndexOf_eq_of_found _ _ _ h]
  have htn : (((i : Nat) : Int) + 1).toNat = i + 1 := by omega
  have hnone : (getInstances r id).get? (i + 1) = none :=
    List.get?_eq_none.mpr (by omega)
  have hne : getInstances r id ≠ [] := by
    intro h0
    rw [h0] at hlen
    simp at hlen
  rw [htn, hnone, get?_zero_of_ne_nil _ hne]
  rfl

theorem nextInstance_not_found (r : Registry) (id cur : Nat)
    (h : indexOfFirst cur (getInstances r id) = none)
    (hne : getInstances r id ≠ []) :
    nextInstance r id cur = some ((getInstances r id).headD 0) := by
  rw [nextInstance_eq, jsIndexOf_eq_of_not_found _ _ h]
  have htn : ((-1 : Int) + 1).toNat = 0 := by omega
  rw [htn, get?_zero_of_ne_nil _ hne]
  rfl

theorem nextInstance_of_empty (r : Registry) (id cur : Nat)
    (h : getInstances r id = []) : nextInstance r id cur = none := by
  rw [nextInstance_eq, h]
  rfl

theorem nextInstanceOpt_of_empty (r : Registry) (id : Nat) (cur : Option Nat)
    (h : getInstances r id = []) : nextInstanceOpt r id cur = none := by
  cases cur with
  | none =>
    show jsFallback ((getInstances r id).get? 0) ((getInstances r id).get? 0) = none
    rw [h]
    rfl
  | some c => exact nextInstance_of_empty r id c h

theorem dispatch_focus_other (r : Registry) (s : AppState) (id : Nat)
    (h : ∀ f, s.focus = some f → f.id ≠ id) :
    dispatch r s (.focusSurface id) =
      { s with focus := some ⟨id, (getInstances r id).get? 0⟩ } := by
  cases hf : s.focus with
  | none => simp [dispatch, hf]
  | some f => simp [dispatch, hf, h f hf]

theorem dispatch_focus_same (r : Registry) (s : AppState) (id : Nat) (io : Option Nat)
    (h : s.focus = some ⟨id, io⟩) :
    dispatch r s (.focusSurface id) =
      { s with focus := some ⟨id, nextInstanceOpt r id io⟩ } := by
  simp [dispatch, h]

theorem registerInstance_preserves_nodup (r : Registry) (id : Nat)
    (h : ∀ j, (r j).Nodup) : ∀ j, (((registerInstance r id).2) j).Nodup := by
  intro j
  by_cases he : (r id).isEmpty
  · show ((if (r id).isEmpty then _ else _ : Nat × Registry).2 j).Nodup
    rw [if_pos he]
    show ((updateAt r id [0]) j).Nodup
    unfold updateAt
    split_ifs
    · simp
    · exact h j
  · show ((if (r id).isEmpty then _ else _ : Nat × Registry).2 j).Nodup
    rw [if_neg he]
    show ((updateAt r id (r id ++ [(r id).foldl Nat.max 0 + 1])) j).Nodup
    unfold updateAt
    split_ifs
    · have hnotmem : (r id).foldl Nat.max 0 + 1 ∉ r id := by
        intro hmem
        have := mem_le_foldl_max (r id) _ hmem
        omega
      refine List.Nodup.append (h id) (List.nodup_singleton _) ?_
      intro a ha hb
      rw [List.mem_singleton.mp hb] at ha
      exact hnotmem ha
    · exact h j

theorem removeInstance_preserves_nodup (r : Registry) (id inst : Nat)
    (h : ∀ j, (r j).Nodup) : ∀ j, ((removeInstance r id inst) j).Nodup := by
  intro j
  unfold removeInstance updateAt
  split_ifs
  · exact List.Nodup.erase inst (h id)
  · exact h j

theorem foldl_applyOp_preserves_nodup (ops : List RegOp) :
    ∀ (r : Registry), (∀ j, (r j).Nodup) →
      ∀ j, ((ops.foldl applyOp r) j).Nodup := by
  induction ops with
  | nil => exact fun r h j => h j
  | cons op rest ih =>
    intro r h j
    refine ih (applyOp r op) ?_ j
    intro j2
    cases op with
    | register id => exact registerInstance_preserves_nodup r id h j2
    | remove id inst => exact removeInstance_preserves_nodup r id inst h j2

theorem headD_eq_getD_zero (l : List Nat) : l.headD 0 = l.getD 0 0 := by
  cases l <;> rfl

theorem mem_datumListIds_of_mem (a : Nat) (d : Datum) (l : List Datum)
    (hd : d ∈ l) (h : a ∈ datumIds d) : a ∈ datumListIds l := by
  induction l with
  | nil => simp at hd
  | cons e rest ih =>
    rw [show datumListIds (e :: rest) = datumIds e ++ datumListIds rest from rfl]
    rcases List.mem_cons.mp hd with he | hmem
    · subst he
      exact List.mem_append_left _ h
    · exact List.mem_append_right _ (ih hmem)

mutual

theorem idAppears_of_mem_datumIds (a : Nat) :
    (d : Datum) → a ∈ datumIds d → IdAppears a d
  | Datum.card id t ds, h => by
    have ha : a = id := by
      rw [show datumIds (Datum.card id t ds) = [id] from rfl] at h
      simpa using h
    subst ha
    exact IdAppears.card a t ds
  | Datum.stack id l, h => by
    rw [show datumIds (Datum.stack id l) = id :: datumListIds l from rfl] at h
    rcases List.mem_cons.mp h with ha | hmem
    · subst ha
      exact IdAppears.stackSelf a l
    · obtain ⟨d, hd, hap⟩ := exists_idAppears_of_mem_datumListIds a l hmem
      exact IdAppears.stackChild a id l d hd hap

theorem exists_idAppears_of_mem_datumListIds (a : Nat) :
    (l : List Datum) → a ∈ datumListIds l → ∃ d, d ∈ l ∧ IdAppears a d
  | [], h => absurd h (by rw [show datumListIds [] = [] from rfl]; simp)
  | d :: rest, h => by
    rw [show datumListIds (d :: rest) = datumIds d ++ datumListIds rest from rfl] at h
    rcases List.mem_append.mp h with h1 | h2
    · exact ⟨d, List.mem_cons_self d rest, idAppears_of_mem_datumIds a d h1⟩
    · obtain ⟨e, he, hap⟩ := exists_idAppears_of_mem_datumListIds a rest h2
      exact ⟨e, List.mem_cons_of_mem d he, hap⟩

end

theorem mem_datumIds_of_idAppears (a : Nat) (d : Datum) (h : IdAppears a d) :
    a ∈ datumIds d := by
  induction h with
  | card t ds =>
    rw [show datumIds (Datum.card a t ds) = [a] from rfl]
    simp
  | stackSelf l =>
    rw [show datumIds (Datum.stack a l) = a :: datumListIds l from rfl]
    simp
  | stackChild id l d hd hap ih =>
    rw [show datumIds (Datum.stack id l) = id :: datumListIds l from rfl]
    exact List.mem_cons_of_mem id (mem_datumListIds_of_mem a d l hd ih)

theorem dispatchN_focus_getD (r : Registry) (s : AppState) (id : Nat)
    (hnd : (getInstances r id).Nodup) (hne : getInstances r id ≠ [])
    (hfoc : ∀ f, s.focus = some f → f.id ≠ id) :
    ∀ k, k < (getInstances r id).length →
      (dispatchN r s id (k + 1)).focus
        = some ⟨id, some ((getInstances r id).getD k 0)⟩ := by
  intro k
  induction k with
  | zero =>
    intro hk
    rw [show dispatchN r s id (0 + 1) = dispatch r s (.focusSurface id) from rfl]
    rw [dispatch_focus_other r s id hfoc, get?_zero_of_ne_nil _ hne,
      headD_eq_getD_zero]
  | succ k ih =>
    intro hk
    have hk' : k < (getInstances r id).length := Nat.lt_of_succ_lt hk
    have hprev := ih hk'
    rw [show dispatchN r s id (k + 1 + 1)
        = dispatch r (dispatchN r s id (k + 1)) (.focusSurface id) from rfl]
    rw [dispatch_focus_same r _ id _ hprev]
    rw [show nextInstanceOpt r id (some ((getInstances r id).getD k 0))
        = nextInstance r id ((getInstances r id).getD k 0) from rfl]
    have hidx := indexOfFirst_of_nodup (getInstances r id) k hnd hk'
    rw [nextInstance_found_mid r id _ k hidx hk]

theorem dispatchN_trace_take (r : Registry) (s : AppState) (id : Nat)
    (hnd : (getInstances r id).Nodup) (hne : getInstances r id ≠ [])
    (hfoc : ∀ f, s.focus = some f → f.id ≠ id) :
    ∀ n, n ≤ (getInstances r id).length →
      ((List.range n).map (fun k => (dispatchN r s id (k + 1)).focus))
        = ((getInstances r id).take n).map
            (fun v => some (Focus.mk id (some v))) := by
  intro n
  induction n with
  | zero => intro _; rfl
  | succ n ih =>
    intro hn
    have hn' : n < (getInstances r id).length := hn
    rw [List.range_succ, List.map_append,
      ih (Nat.le_of_lt hn'), List.take_succ]
    have hget : (getInstances r id)[n]? = some ((getInstances r id).getD n 0) := by
      rw [show (getInstances r id)[n]? = (getInstances r id).get? n from
        (List.get?_eq_getElem? _ _).symm]
      exact get?_eq_some_getD _ n hn'
    rw [hget]
    rw [List.map_append]
    congr 1
    rw [show (List.map (fun k => (dispatchN r s id (k + 1)).focus) [n])
        = [(dispatchN r s id (n + 1)).focus] from rfl]
    rw [dispatchN_focus_getD r s id hnd hne hfoc n hn']
    rfl

theorem removeInstance_self (r : Registry) (id n : Nat) :
    removeInstance r id n id = (r id).erase n := by
  unfold removeInstance updateAt
  rw [if_pos rfl]

theorem removeInstance_other (r : Registry) (id n j : Nat) (hj : j ≠ id) :
    removeInstance r id n j = r j := by
  unfold removeInstance updateAt
  rw [if_neg hj]

theorem registerInstance_empty (r : Registry) (id : Nat) (h : r id = []) :
    registerInstance r id = (0, updateAt r id [0]) := by
  unfold registerInstance
  rw [if_pos (by rw [h]; rfl)]

theorem registerInstance_nonempty (r : Registry) (id : Nat) (h : r id ≠ []) :
    registerInstance r id
      = ((r id).foldl Nat.max 0 + 1,
          updateAt r id (r id ++ [(r id).foldl Nat.max 0 + 1])) := by
  unfold registerInstance
  rw [if_neg (by intro hc; exact h (List.isEmpty_iff.mp hc))]

theorem updateAt_self (r : Registry) (id : Nat) (l : List Nat) :
    updateAt r id l id = l := by
  unfold updateAt
  rw [if_pos rfl]

/-!
## Claims
-/

/-- C1, counterexample: with zero live instances of identifier 5 and no current
focus, dispatching `FOCUS_SURFACE(5)` does not leave the focus pointer
unchanged: it overwrites it with `(5, undefined)`. -/
theorem c1_counterexample :
    getInstances emptyRegistry 5 = []
    ∧ (dispatch emptyRegistry ⟨true, none⟩ (.focusSurface 5)).focus
        ≠ (AppState.mk true none).focus := by decide

/-- C1 (amended): for every state and every identifier with zero live
instances, dispatching `FOCUS_SURFACE(id)` raises no exception (the update is
total) but is not a no-op: it always rewrites the focus pointer to
`(id, undefined)`, leaving the rest of the state unchanged. -/
theorem c1_focus_empty (r : Registry) (s : AppState) (id : Nat)
    (h : getInstances r id = []) :
    dispatch r s (.focusSurface id) = { s with focus := some ⟨id, none⟩ } := by
  cases hf : s.focus with
  | none =>
    rw [dispatch_focus_other r s id (fun f hf2 => by rw [hf] at hf2; cases hf2)]
    rw [show getInstances r id = [] from h]
    rfl
  | some f =>
    by_cases hid : f.id = id
    · have hfoc2 : s.focus = some ⟨id, f.inst⟩ := by rw [hf, ← hid]
      rw [dispatch_focus_same r s id f.inst hfoc2,
        nextInstanceOpt_of_empty r id f.inst h]
    · rw [dispatch_focus_other r s id
        (fun g hg => by rw [hf] at hg; cases hg; exact hid)]
      rw [show getInstances r id = [] from h]
      rfl

/-- C1 witness: dispatching `FOCUS_SURFACE(5)` with no live instance of 5
rewrites a focus on identifier 3 to `(5, undefined)`. -/
theorem c1_focus_empty_witness :
    dispatch emptyRegistry ⟨true, some ⟨3, some 0⟩⟩ (.focusSurface 5)
      = { overlays := true, focus := some ⟨5, none⟩ } :=
  c1_focus_empty emptyRegistry ⟨true, some ⟨3, some 0⟩⟩ 5 rfl

/-- C2: `registerInstance` returns 0 and creates `[0]` on an empty live list,
and otherwise returns the maximum of the live list plus one (the returned
value exceeds every live element and its predecessor is a live element) and
appends it; concretely, registering id 7 three times from empty returns
0, 1, 2, removing 1 leaves `[0, 2]`, and a further register returns 3. -/
theorem c2_register_spec (r : Registry) (id : Nat) :
    (r id = [] →
      (registerInstance r id).1 = 0 ∧ (registerInstance r id).2 id = [0])
    ∧ (r id ≠ [] →
      ((registerInstance r id).1 - 1) ∈ r id
      ∧ (∀ x ∈ r id, x < (registerInstance r id).1)
      ∧ (registerInstance r id).2 id = r id ++ [(registerInstance r id).1])
    ∧ ((registerInstance emptyRegistry 7).1 = 0
      ∧ (registerInstance (registerInstance emptyRegistry 7).2 7).1 = 1
      ∧ (registerInstance (registerInstance
          (registerInstance emptyRegistry 7).2 7).2 7).1 = 2
      ∧ getInstances (removeInstance (registerInstance (registerInstance
          (registerInstance emptyRegistry 7).2 7).2 7).2 7 1) 7 = [0, 2]
      ∧ (registerInstance (removeInstance (registerInstance (registerInstance
          (registerInstance emptyRegistry 7).2 7).2 7).2 7 1) 7).1 = 3) := by
  refine ⟨?_, ?_, by decide⟩
  · intro h
    rw [registerInstance_empty r id h]
    exact ⟨rfl, updateAt_self r id [0]⟩
  · intro h
    rw [registerInstance_nonempty r id h]
    refine ⟨?_, ?_, ?_⟩
    · simpa using foldl_max_mem (r id) h
    · intro x hx
      have := mem_le_foldl_max (r id) x hx
      omega
    · exact updateAt_self r id _

/-- C2 witness: both branches of the register contract exercised at concrete
registries: from empty the call returns 0, and on the live list `[0, 2]` the
predecessor of the returned number is a live element (the return is 3). -/
theorem c2_register_spec_witness :
    (registerInstance emptyRegistry 7).1 = 0
    ∧ ((registerInstance (updateAt emptyRegistry 7 [0, 2]) 7).1 - 1)
        ∈ (updateAt emptyRegistry 7 [0, 2]) 7 := by
  constructor
  · exact ((c2_register_spec emptyRegistry 7).1 rfl).1
  · exact ((c2_register_spec (updateAt emptyRegistry 7 [0, 2]) 7).2.1 (by decide)).1

/-- C7: `removeInstance` deletes the instance from the identifier's live list
when present, is a pointwise no-op when the value (or the whole entry) is
absent, and calling it twice in a row produces the same registry state as
calling it once. -/
theorem c7_remove_spec (r : Registry) (id n : Nat) (hnd : (r id).Nodup) :
    (n ∉ r id → ∀ j, removeInstance r id n j = r j)
    ∧ (n ∈ r id → n ∉ removeInstance r id n id)
    ∧ (∀ j, removeInstance (removeInstance r id n) id n j
        = removeInstance r id n j) := by
  refine ⟨?_, ?_, ?_⟩
  · intro h j
    by_cases hj : j = id
    · subst hj
      rw [removeInstance_self, List.erase_of_not_mem h]
    · rw [removeInstance_other r id n j hj]
  · intro _ hc
    rw [removeInstance_self] at hc
    rcases (List.Nodup.mem_erase_iff hnd).mp hc with ⟨hne2, _⟩
    exact hne2 rfl
  · intro j
    by_cases hj : j = id
    · subst hj
      rw [removeInstance_self, removeInstance_self]
      apply List.erase_of_not_mem
      intro hc
      rcases (List.Nodup.mem_erase_iff hnd).mp hc with ⟨hne2, _⟩
      exact hne2 rfl
    · rw [removeInstance_other _ id n j hj, removeInstance_other r id n j hj]

/-- C7 witness: on the live list `[0, 2]` for identifier 7, removing instance 2
twice leaves the same entry as removing it once. -/
theorem c7_remove_spec_witness :
    removeInstance (removeInstance (updateAt emptyRegistry 7 [0, 2]) 7 2) 7 2 7
      = removeInstance (updateAt emptyRegistry 7 [0, 2]) 7 2 7 :=
  (c7_remove_spec (updateAt emptyRegistry 7 [0, 2]) 7 2 (by decide)).2.2 7

/-- C9: removing the very instance the focus pointer designates leaves the
focus store untouched: the application state is unchanged, the focus still
reads `(id, n)`, yet `n` no longer appears in the live list for `id`. -/
theorem c9_remove_keeps_focus (s : Sys) (id n : Nat)
    (hnd : (getInstances s.reg id).Nodup)
    (hf : s.app.focus = some ⟨id, some n⟩)
    (hmem : n ∈ getInstances s.reg id) :
    (sysRemove s id n).app = s.app
    ∧ (sysRemove s id n).app.focus = some ⟨id, some n⟩
    ∧ n ∉ getInstances (sysRemove s id n).reg id := by
  refine ⟨rfl, hf, ?_⟩
  intro hc
  rw [show getInstances (sysRemove s id n).reg id
      = removeInstance s.reg id n id from rfl, removeInstance_self] at hc
  rcases (List.Nodup.mem_erase_iff hnd).mp hc with ⟨hne2, _⟩
  exact hne2 rfl

/-- C9 witness: with one live instance `(4, 0)` focused, removing it keeps the
focus at `(4, 0)` while the live list no longer contains 0. -/
theorem c9_remove_keeps_focus_witness :
    (sysRemove ⟨updateAt emptyRegistry 4 [0], ⟨true, some ⟨4, some 0⟩⟩⟩ 4 0).app.focus
      = some ⟨4, some 0⟩
    ∧ (0 : Nat) ∉ getInstances
        (sysRemove ⟨updateAt emptyRegistry 4 [0], ⟨true, some ⟨4, some 0⟩⟩⟩ 4 0).reg 4 := by
  have h := c9_remove_keeps_focus
    ⟨updateAt emptyRegistry 4 [0], ⟨true, some ⟨4, some 0⟩⟩⟩ 4 0
    (by decide) rfl (by decide)
  exact ⟨h.2.1, h.2.2⟩

/-- C10: the `FOCUS_SURFACE` branch of the dispatcher writes only the focus
field: the overlays-visible field of the state is unchanged by any dispatch. -/
theorem c10_overlays_frame (r : Registry) (s : AppState) (id : Nat) :
    (dispatch r s (.focusSurface id)).overlays = s.overlays := by
  cases hf : s.focus with
  | none =>
    rw [dispatch_focus_other r s id (fun f hf2 => by rw [hf] at hf2; cases hf2)]
  | some f =>
    by_cases hid : f.id = id
    · have hfoc2 : s.focus = some ⟨id, f.inst⟩ := by rw [hf, ← hid]
      rw [dispatch_focus_same r s id f.inst hfoc2]
    · rw [dispatch_focus_other r s id
        (fun g hg => by rw [hf] at hg; cases hg; exact hid)]

/-- C3: with at least one live instance, dispatching `FOCUS_SURFACE(id)` from
a state whose focus is absent or on another identifier focuses the first live
instance of `id`; from a state already focused on `id` it advances to the
instance following the current one in list order, wrapping to the first when
the current one is last or absent; concretely with live list `[0, 1]` of
identifier 9 and focus `(9, 0)`, one dispatch yields `(9, 1)` and a second
yields `(9, 0)`. -/
theorem c3_dispatch_cycles (r : Registry) (s : AppState) (id : Nat)
    (hne : getInstances r id ≠ []) :
    ((∀ f, s.focus = some f → f.id ≠ id) →
      (dispatch r s (.focusSurface id)).focus
        = some ⟨id, some ((getInstances r id).headD 0)⟩)
    ∧ (∀ cur i, s.focus = some ⟨id, some cur⟩ →
        indexOfFirst cur (getInstances r id) = some i →
        (dispatch r s (.focusSurface id)).focus
          = some ⟨id, some (if i + 1 < (getInstances r id).length
              then (getInstances r id).getD (i + 1) 0
              else (getInstances r id).headD 0)⟩)
    ∧ (∀ cur, s.focus = some ⟨id, some cur⟩ →
        indexOfFirst cur (getInstances r id) = none →
        (dispatch r s (.focusSurface id)).focus
          = some ⟨id, some ((getInstances r id).headD 0)⟩)
    ∧ (dispatch (updateAt emptyRegistry 9 [0, 1]) ⟨true, some ⟨9, some 0⟩⟩
          (.focusSurface 9)).focus = some ⟨9, some 1⟩
    ∧ (dispatch (updateAt emptyRegistry 9 [0, 1])
          (dispatch (updateAt emptyRegistry 9 [0, 1]) ⟨true, some ⟨9, some 0⟩⟩
            (.focusSurface 9)) (.focusSurface 9)).focus = some ⟨9, some 0⟩ := by
  refine ⟨?_, ?_, ?_, by decide, by decide⟩
  · intro h
    rw [dispatch_focus_other r s id h, get?_zero_of_ne_nil _ hne]
  · intro cur i hf hidx
    rw [dispatch_focus_same r s id (some cur) hf]
    rw [show nextInstanceOpt r id (some cur) = nextInstance r id cur from rfl]
    by_cases hlt : i + 1 < (getInstances r id).length
    · rw [nextInstance_found_mid r id cur i hidx hlt, if_pos hlt]
    · have hlen : i + 1 = (getInstances r id).length := by
        have := indexOfFirst_lt_length cur (getInstances r id) i hidx
        omega
      rw [nextInstance_found_last r id cur i hidx hlen, if_neg hlt]
  · intro cur hf hidx
    rw [dispatch_focus_same r s id (some cur) hf]
    rw [show nextInstanceOpt r id (some cur) = nextInstance r id cur from rfl]
    rw [nextInstance_not_found r id cur hidx hne]

/-- C3 witness: with live list `[0, 1]` of identifier 9 and no focus, one
dispatch focuses the first live instance `(9, 0)`. -/
theorem c3_dispatch_cycles_witness :
    (dispatch (updateAt emptyRegistry 9 [0, 1]) ⟨true, none⟩
        (.focusSurface 9)).focus = some ⟨9, some 0⟩ := by
  have h := (c3_dispatch_cycles (updateAt emptyRegistry 9 [0, 1]) ⟨true, none⟩ 9
      (by decide)).1 (fun f hf => by cases hf)
  exact h

/-- C4: on a non-empty live list, `nextInstance` returns the element
immediately following the (first occurrence of the) current value in list
order, and the first element when the current value is last or does not occur;
concretely with live list `[0, 2, 3]` and current 3 it returns 0. -/
theorem c4_nextInstance_spec (r : Registry) (id cur : Nat)
    (hne : getInstances r id ≠ []) :
    (∀ i, indexOfFirst cur (getInstances r id) = some i →
      nextInstance r id cur
        = some (if i + 1 < (getInstances r id).length
            then (getInstances r id).getD (i + 1) 0
            else (getInstances r id).headD 0))
    ∧ (indexOfFirst cur (getInstances r id) = none →
      nextInstance r id cur = some ((getInstances r id).headD 0))
    ∧ nextInstance (updateAt emptyRegistry 1 [0, 2, 3]) 1 3 = some 0 := by
  refine ⟨?_, ?_, by decide⟩
  · intro i hidx
    by_cases hlt : i + 1 < (getInstances r id).length
    · rw [nextInstance_found_mid r id cur i hidx hlt, if_pos hlt]
    · have hlen : i + 1 = (getInstances r id).length := by
        have := indexOfFirst_lt_length cur (getInstances r id) i hidx
        omega
      rw [nextInstance_found_last r id cur i hidx hlen, if_neg hlt]
  · intro hidx
    exact nextInstance_not_found r id cur hidx hne

/-- C4 witness: on the live list `[0, 2, 3]` the instance following 0 is 2. -/
theorem c4_nextInstance_spec_witness :
    nextInstance (updateAt emptyRegistry 1 [0, 2, 3]) 1 0 = some 2 := by
  have h := (c4_nextInstance_spec (updateAt emptyRegistry 1 [0, 2, 3]) 1 0
      (by decide)).1 0 (by decide)
  exact h.trans (by decide)

/-- C5: with n ≥ 1 live instances of `id` (no duplicates, as holds in every
reachable registry state) and no intervening registry mutation, dispatching
`FOCUS_SURFACE(id)` n times from a state not focused on `id` produces the
trace of focus values that enumerates the live list in order: every live
instance is focused exactly once (the trace has no duplicates) before any
instance repeats. -/
theorem c5_cyclic_completeness (r : Registry) (s : AppState) (id : Nat)
    (hne : getInstances r id ≠ []) (hnd : (getInstances r id).Nodup)
    (hfoc : ∀ f, s.focus = some f → f.id ≠ id) :
    ((List.range (getInstances r id).length).map
        (fun k => (dispatchN r s id (k + 1)).focus))
      = (getInstances r id).map (fun v => some (Focus.mk id (some v)))
    ∧ ((List.range (getInstances r id).length).map
        (fun k => (dispatchN r s id (k + 1)).focus)).Nodup := by
  have htr := dispatchN_trace_take r s id hnd hne hfoc
      (getInstances r id).length (Nat.le_refl _)
  rw [List.take_length] at htr
  refine ⟨htr, ?_⟩
  rw [htr]
  refine List.Nodup.map ?_ hnd
  intro x y hxy
  simpa using hxy

/-- C5 witness: with live list `[0, 1]` of identifier 9 and no initial focus,
the two dispatches focus `(9, 0)` then `(9, 1)`: each instance once. -/
theorem c5_cyclic_completeness_witness :
    ((List.range 2).map
        (fun k => (dispatchN (updateAt emptyRegistry 9 [0, 1]) ⟨true, none⟩ 9
            (k + 1)).focus))
      = [some (Focus.mk 9 (some 0)), some (Focus.mk 9 (some 1))] := by
  have h := (c5_cyclic_completeness (updateAt emptyRegistry 9 [0, 1])
      ⟨true, none⟩ 9 (by decide) (by decide) (fun f hf => by cases hf)).1
  exact h.trans (by decide)

/-- C6: in every registry state reachable from the empty registry by a
sequence of register and remove operations, the live list of every identifier
contains no duplicate values. -/
theorem c6_listInstances_nodup (ops : List RegOp) (id : Nat) :
    (getInstances (runOps ops) id).Nodup :=
  foldl_applyOp_preserves_nodup ops emptyRegistry (fun _ => List.nodup_nil) id

/-- C8: `collectIds` returns exactly the set of identifiers appearing anywhere
in the trees (own id of each node, recursively through stack children), as a
deduplicated set; concretely for `[card 1, stack 2 [card 1, card 3]]` it is
the three-element set of 1, 2 and 3 even though identifier 1 occurs twice. -/
theorem c8_collectIds_spec :
    (∀ (data : List Datum) (a : Nat),
      a ∈ collectIds data ↔ ∃ d, d ∈ data ∧ IdAppears a d)
    ∧ collectIds [Datum.card 1 "" "",
        Datum.stack 2 [Datum.card 1 "" "", Datum.card 3 "" ""]] = {1, 2, 3} := by
  constructor
  · intro data a
    rw [collectIds, List.mem_toFinset]
    constructor
    · exact exists_idAppears_of_mem_datumListIds a data
    · rintro ⟨d, hd, hap⟩
      exact mem_datumListIds_of_mem a d data hd (mem_datumIds_of_idAppears a d hap)
  · decide

end SurfaceIndexing
